import Mathlib

/-
Verification of the debug-macros crate (src/src/lib.rs) against its
specification.  The development shallowly embeds the library:

* `Value` / `rustDebug` model the structural debug rendering performed by
  the format specifier used in the source (decimal integers, quoted and
  escaped strings, None and Some-wrapped optionals).
* `Sink` models a destination accepting sequential text appends.  Each
  append either succeeds (extending the contents and bumping the append
  counter) or fails; the set of failing append indices is carried by the
  sink so that write failure can be injected.  A failed append models a
  failing write_fmt; the macro immediately unwraps such a failure into a
  panic, which the embedding renders as the Except.error outcome of the
  whole call.
* `DebugArgs` enumerates the three argument shapes accepted by the
  debug_writeln macro's three rules: no label, a label alone, or a label
  followed by one or more values.
* `debug_writeln` is the direct translation of the macro body: when the
  debug flag is on it performs the same sequence of write_fmt appends as
  the expansion, unwrapping each failure; when the flag is off it does
  nothing.
* `World` / `stepCall` / `runCalls` model the process-global DEBUG flag
  (an atomic boolean in the source) together with the public API calls
  operating on it, for single-threaded call sequences.
* The Act / CState / stepT machinery models the interleaving of
  concurrent debug-macro calls on the shared, lock-protected stderr
  stream at the granularity of one locked write_fmt per step, exactly as
  the macro expansion performs them.
-/

set_option autoImplicit false

/-- Values renderable by the structural debug format of the source:
integers, string slices, and optionals (absent or wrapping an inner
value). -/
inductive Value where
  | int (n : Int)
  | str (s : String)
  | optNone
  | optSome (v : Value)
deriving DecidableEq

/-- Escaping of one character inside a double-quoted debug rendering of a
string, matching the default escaping of quotes, backslashes and common
control characters. -/
def escapeChar (c : Char) : String :=
  if c = '"' then "\\\""
  else if c = '\\' then "\\\\"
  else if c = '\n' then "\\n"
  else if c = '\t' then "\\t"
  else if c = '\r' then "\\r"
  else String.singleton c

/-- Escape every character of a string for its debug rendering. -/
def escapeDebug (s : String) : String :=
  (s.toList.map escapeChar).foldl (fun a b => a ++ b) ""

/-- The structural debug rendering written by the format specifier in the
source: integers print in decimal, strings print quoted and escaped, an
absent optional prints the None token, a present optional wraps its inner
rendering. -/
def rustDebug : Value → String
  | .int n => toString n
  | .str s => "\"" ++ escapeDebug s ++ "\""
  | .optNone => "None"
  | .optSome v => "Some(" ++ rustDebug v ++ ")"

/-- A sink accepting sequential text appends.  `contents` is everything
written so far, `writeCount` counts the appends performed on it, and
`failures` lists the indices (in appends-performed order) at which an
append fails instead of succeeding. -/
structure Sink where
  contents : String
  writeCount : Nat
  failures : List Nat
deriving DecidableEq

/-- One append operation (one write_fmt call of the source).  On failure
the caller unwraps, i.e. panics; the embedding reports that as an error
outcome. -/
def Sink.write (f : Sink) (c : String) : Except Unit Sink :=
  if f.failures.contains f.writeCount then .error ()
  else .ok ⟨f.contents ++ c, f.writeCount + 1, f.failures⟩

/-- The three argument shapes accepted by the three rules of the
debug_writeln macro: a bare sink, a sink with a label literal, or a sink
with a label literal and one or more values. -/
inductive DebugArgs where
  | nullary
  | labelOnly (msg : String)
  | withValues (msg : String) (x0 : Value) (xs : List Value)
deriving DecidableEq

/-- Sequential appends for the repeated values of the first macro rule:
each remaining value is written as a comma-space followed by its debug
rendering, unwrapping any failure. -/
def writeValues (f : Sink) : List Value → Except Unit Sink
  | [] => .ok f
  | x :: xs =>
    match f.write (", " ++ rustDebug x) with
    | .error e => .error e
    | .ok f1 => writeValues f1 xs

/-- Direct translation of the debug_writeln macro.  When the debug flag is
off the whole body is skipped.  When it is on, the rule with values writes
the label header, then the first value's rendering, then each remaining
value prefixed by a comma-space, then a newline, each as one append whose
failure is unwrapped (a panic, reported as the error outcome); the
label-only rule writes the single line with the label; the bare rule
writes the bare debug line. -/
def debug_writeln (dbg : Bool) (f : Sink) : DebugArgs → Except Unit Sink
  | .withValues msg x0 xs =>
    if dbg then
      match f.write ("debug: " ++ msg ++ ": ") with
      | .error e => .error e
      | .ok f1 =>
        match f1.write (rustDebug x0) with
        | .error e => .error e
        | .ok f2 =>
          match writeValues f2 xs with
          | .error e => .error e
          | .ok f3 => f3.write "\n"
    else .ok f
  | .labelOnly msg =>
    if dbg then f.write ("debug: " ++ msg ++ "\n") else .ok f
  | .nullary =>
    if dbg then f.write "debug\n" else .ok f

/-- Concatenation of a list of strings, in order. -/
def sconcat : List String → String
  | [] => ""
  | c :: cs => c ++ sconcat cs

/-- The chunk sequence of one enabled trace call: exactly the successive
write_fmt appends the macro expansion performs for each argument shape. -/
def chunksOf : DebugArgs → List String
  | .nullary => ["debug\n"]
  | .labelOnly msg => ["debug: " ++ msg ++ "\n"]
  | .withValues msg x0 xs =>
    ("debug: " ++ msg ++ ": ") :: rustDebug x0 ::
      (xs.map (fun x => ", " ++ rustDebug x) ++ ["\n"])

/-- Sequential appends of a chunk list, unwrapping any failure. -/
def writeAll (f : Sink) : List String → Except Unit Sink
  | [] => .ok f
  | c :: cs =>
    match f.write c with
    | .error e => .error e
    | .ok f1 => writeAll f1 cs

/-- Whether a raw macro invocation shape is accepted, and if so which
argument shape it elaborates to.  Modelled rule by rule from the macro:
a bare sink (no trailing comma) is the bare rule; a sink and a label with
no values and no trailing comma is the label-only rule; a sink, a label
and at least one value is the values rule, which alone allows an optional
trailing comma; every other shape matches no rule and is rejected at
compile time. -/
def acceptsCall (label : Option String) (values : List Value)
    (trailingComma : Bool) : Option DebugArgs :=
  match label, values, trailingComma with
  | none, [], false => some .nullary
  | some msg, [], false => some (.labelOnly msg)
  | some msg, x :: xs, _ => some (.withValues msg x xs)
  | _, _, _ => none

/-- The process state visible to the library: the global DEBUG flag
together with the stderr stream and a caller-owned buffer sink. -/
structure World where
  flag : Bool
  stderrSink : Sink
  buf : Sink
deriving DecidableEq

/-- Translation of set_debug: unconditionally store the new value into the
shared flag. -/
def set_debug (b : Bool) (w : World) : World :=
  { w with flag := b }

/-- Translation of is_debug: load the shared flag. -/
def is_debug (w : World) : Bool :=
  w.flag

/-- The initial value of the static DEBUG flag: the debug_emit feature is
compiled in, and debug_assertions or test is configured. -/
def DEBUG_initial (debug_emit debug_assertions test_cfg : Bool) : Bool :=
  debug_emit && (debug_assertions || test_cfg)

/-- The process state at start: the flag holds its compile-time initial
value and the sinks are whatever the environment provides. -/
def initWorld (debug_emit debug_assertions test_cfg : Bool)
    (stderrSink buf : Sink) : World :=
  ⟨DEBUG_initial debug_emit debug_assertions test_cfg, stderrSink, buf⟩

/-- The public operations of the library, as invoked sequentially by one
thread: setting the flag, reading it, tracing to the caller-owned buffer
sink, and tracing to stderr via the stderr-bound macro. -/
inductive ApiCall where
  | setDebug (b : Bool)
  | isDebugCall
  | debugWriteln (args : DebugArgs)
  | debugStderr (args : DebugArgs)
deriving DecidableEq

/-- One API call acting on the process state.  A trace call consults the
flag and performs its appends on the corresponding sink; if an append
fails the call panics, killing the process (no successor state). -/
def stepCall (w : World) : ApiCall → Option World
  | .setDebug b => some (set_debug b w)
  | .isDebugCall => some w
  | .debugWriteln args =>
    match debug_writeln (is_debug w) w.buf args with
    | .ok f => some { w with buf := f }
    | .error _ => none
  | .debugStderr args =>
    match debug_writeln (is_debug w) w.stderrSink args with
    | .ok f => some { w with stderrSink := f }
    | .error _ => none

/-- A sequence of API calls run from a state, stopping at a panic. -/
def runCalls (calls : List ApiCall) (w : World) : Option World :=
  match calls with
  | [] => some w
  | c :: cs =>
    match stepCall w c with
    | some w1 => runCalls cs w1
    | none => none

/-- Primitive events of one thread interacting with the lock-protected
stderr stream: acquiring the lock, appending one chunk through the held
lock, and releasing the lock. -/
inductive Act where
  | lock
  | write (c : String)
  | unlock
deriving DecidableEq

/-- Shared state of two threads (identified by false and true) racing on
stderr: who holds the lock, the chunks appended so far tagged by writer,
and each thread's remaining actions. -/
structure CState where
  lockHolder : Option Bool
  output : List (Bool × String)
  progA : List Act
  progB : List Act
deriving DecidableEq

/-- The remaining actions of a thread. -/
def CState.prog (s : CState) (t : Bool) : List Act :=
  bif t then s.progB else s.progA

/-- Replace the remaining actions of a thread. -/
def CState.withProg (s : CState) (t : Bool) (p : List Act) : CState :=
  bif t then { s with progB := p } else { s with progA := p }

/-- One scheduler step giving thread `t` the processor: the thread's next
action fires if its guard allows (the lock is free for an acquire, held by
the thread for a write or a release); a blocked or finished thread leaves
the state unchanged. -/
def stepT (t : Bool) (s : CState) : CState :=
  match s.prog t with
  | [] => s
  | .lock :: rest =>
    if s.lockHolder = none then
      { s.withProg t rest with lockHolder := some t }
    else s
  | .write c :: rest =>
    if s.lockHolder = some t then
      { s.withProg t rest with output := s.output ++ [(t, c)] }
    else s
  | .unlock :: rest =>
    if s.lockHolder = some t then
      { s.withProg t rest with lockHolder := none }
    else s

/-- Run a schedule: at each step the named thread is given the processor. -/
def run (sched : List Bool) (s : CState) : CState :=
  sched.foldl (fun s t => stepT t s) s

/-- One chunk append of the stderr macro expansion: the lock expression is
re-evaluated for this single write, so the lock is acquired, the chunk is
written, and the temporary lock guard is dropped again. -/
def lockedWrite (c : String) : List Act :=
  [.lock, .write c, .unlock]

/-- The action sequence of one stderr macro call, as the expansion
executes it: nothing when the flag is off; when it is on, each chunk of
the line is written under its own freshly acquired and immediately
released lock, because the lock expression is substituted into every
write statement of the expansion. -/
def debugStderrProg (dbg : Bool) (args : DebugArgs) : List Act :=
  if dbg then ((chunksOf args).map lockedWrite).flatten else []

/-- The action sequence the documentation describes: the lock acquired
once, held across every chunk of the line, and released at the end. -/
def debugStderrIntendedProg (dbg : Bool) (args : DebugArgs) : List Act :=
  if dbg then .lock :: (chunksOf args).map .write ++ [.unlock] else []

/-- Whether the chunks of thread `t` occur contiguously in an output: once
a chunk of another thread follows a chunk of `t`, no further chunk of `t`
appears. -/
def contiguousOut (t : Bool) (out : List (Bool × String)) : Bool :=
  ((out.dropWhile (fun p => p.1 != t)).dropWhile (fun p => p.1 == t)).all
    (fun p => p.1 != t)

/-- A schedule alternating the processor between the two threads after
every three elementary steps (one acquire, one chunk append, one
release). -/
def c1Sched : List Bool :=
  [false, false, false, true, true, true, false, false, false,
   true, true, true, false, false, false, true, true, true]

/-- Two threads about to race on stderr with debugging enabled: thread
false traces the label running with the single value Some(5), thread true
traces the label other with the single value "x".  Each runs the action
sequence of the actual macro expansion. -/
def c1Start : CState :=
  ⟨none, [],
    debugStderrProg true (.withValues "running" (.optSome (.int 5)) []),
    debugStderrProg true (.withValues "other" (.str "x") [])⟩

/-- The same race, but with each thread running the action sequence the
documentation describes (the lock held across the whole line). -/
def c1StartIntended : CState :=
  ⟨none, [],
    debugStderrIntendedProg true (.withValues "running" (.optSome (.int 5)) []),
    debugStderrIntendedProg true (.withValues "other" (.str "x") [])⟩

theorem writeAll_singleton (f : Sink) (c : String) : writeAll f [c] = f.write c := by
  simp only [writeAll]
  cases hw : f.write c
  case error e => rfl
  case ok f1 => rfl

theorem writeValues_eq_writeAll (xs : List Value) (f : Sink) :
    writeValues f xs = writeAll f (xs.map (fun x => ", " ++ rustDebug x)) := by
  induction xs generalizing f with
  | nil => rfl
  | cons x xs ih =>
    simp only [writeValues, List.map, writeAll]
    cases hw : f.write (", " ++ rustDebug x) with
    | error e => rfl
    | ok f1 => exact ih f1

theorem writeAll_append (cs ds : List String) (f : Sink) :
    writeAll f (cs ++ ds) =
      match writeAll f cs with
      | .error e => .error e
      | .ok f1 => writeAll f1 ds := by
  induction cs generalizing f with
  | nil => rfl
  | cons c cs ih =>
    simp only [List.cons_append, writeAll]
    cases hw : f.write c with
    | error e => rfl
    | ok f1 => exact ih f1

theorem debug_writeln_eq_writeAll (f : Sink) (args : DebugArgs) :
    debug_writeln true f args = writeAll f (chunksOf args) := by
  cases args with
  | nullary => simp [debug_writeln, chunksOf, writeAll_singleton]
  | labelOnly msg => simp [debug_writeln, chunksOf, writeAll_singleton]
  | withValues msg x0 xs =>
    simp only [debug_writeln, chunksOf, if_true, writeAll]
    cases h0 : f.write ("debug: " ++ msg ++ ": ")
    case error e => rfl
    case ok f1 =>
      dsimp only
      cases h1 : f1.write (rustDebug x0)
      case error e => rfl
      case ok f2 =>
        dsimp only
        rw [writeValues_eq_writeAll, writeAll_append]
        cases hv : writeAll f2 (xs.map (fun x => ", " ++ rustDebug x))
        case error e => rfl
        case ok f3 => exact (writeAll_singleton f3 "\n").symm

theorem sconcat_append (a b : List String) :
    sconcat (a ++ b) = sconcat a ++ sconcat b := by
  induction a with
  | nil => simp [sconcat, String.empty_append]
  | cons c cs ih => simp [sconcat, ih, String.append_assoc]

theorem writeAll_ok_of_no_failures (cs : List String) (f : Sink)
    (h : f.failures = []) :
    writeAll f cs = .ok ⟨f.contents ++ sconcat cs, f.writeCount + cs.length, []⟩ := by
  induction cs generalizing f with
  | nil =>
    simp only [writeAll, sconcat, List.length_nil, Nat.add_zero, String.append_empty]
    exact congrArg Except.ok (by cases f; cases h; rfl)
  | cons c cs ih =>
    have hw : f.write c = .ok ⟨f.contents ++ c, f.writeCount + 1, f.failures⟩ := by
      simp [Sink.write, h]
    simp only [writeAll, hw]
    rw [ih ⟨f.contents ++ c, f.writeCount + 1, f.failures⟩ h]
    refine congrArg Except.ok ?_
    refine congrArg₂ (fun a b => Sink.mk a b []) ?_ ?_
    · simp [sconcat, String.append_assoc]
    · simp [List.length_cons]
      omega

theorem writeAll_error_iff (cs : List String) (f : Sink) :
    writeAll f cs = .error () ↔
      ∃ i, i < cs.length ∧ f.failures.contains (f.writeCount + i) = true := by
  induction cs generalizing f with
  | nil => simp [writeAll]
  | cons c cs ih =>
    by_cases hb : f.failures.contains f.writeCount = true
    · have hw : f.write c = .error () := by
        unfold Sink.write
        rw [if_pos hb]
      simp only [writeAll, hw]
      constructor
      · intro _
        exact ⟨0, by simp, by simp only [Nat.add_zero]; exact hb⟩
      · intro _
        trivial
    · have hw : f.write c = .ok ⟨f.contents ++ c, f.writeCount + 1, f.failures⟩ := by
        unfold Sink.write
        rw [if_neg hb]
      simp only [writeAll, hw]
      rw [ih ⟨f.contents ++ c, f.writeCount + 1, f.failures⟩]
      constructor
      · rintro ⟨i, hi, hc⟩
        refine ⟨i + 1, by simp [List.length_cons]; omega, ?_⟩
        have he : f.writeCount + (i + 1) = f.writeCount + 1 + i := by omega
        rw [he]
        exact hc
      · rintro ⟨i, hi, hc⟩
        cases i with
        | zero =>
          rw [Nat.add_zero] at hc
          exact absurd hc hb
        | succ j =>
          refine ⟨j, by simp [List.length_cons] at hi; omega, ?_⟩
          have he : f.writeCount + 1 + j = f.writeCount + (j + 1) := by omega
          rw [he]
          exact hc

theorem stepCall_flag_of_not_set (w : World) (c : ApiCall) (w1 : World)
    (hs : stepCall w c = some w1) (hc : ∀ b, c ≠ ApiCall.setDebug b) :
    w1.flag = w.flag := by
  cases c with
  | setDebug b => exact absurd rfl (hc b)
  | isDebugCall =>
    simp only [stepCall] at hs
    cases hs
    rfl
  | debugWriteln args =>
    simp only [stepCall] at hs
    cases hd : debug_writeln (is_debug w) w.buf args with
    | error e => rw [hd] at hs; cases hs
    | ok fnew => rw [hd] at hs; cases hs; rfl
  | debugStderr args =>
    simp only [stepCall] at hs
    cases hd : debug_writeln (is_debug w) w.stderrSink args with
    | error e => rw [hd] at hs; cases hs
    | ok fnew => rw [hd] at hs; cases hs; rfl

theorem runCalls_flag_of_no_set (calls : List ApiCall) (w w1 : World)
    (hr : runCalls calls w = some w1)
    (hc : ∀ c ∈ calls, ∀ b, c ≠ ApiCall.setDebug b) : w1.flag = w.flag := by
  induction calls generalizing w with
  | nil =>
    simp only [runCalls] at hr
    cases hr
    rfl
  | cons c cs ih =>
    simp only [runCalls] at hr
    cases hs : stepCall w c with
    | none => rw [hs] at hr; cases hr
    | some w2 =>
      rw [hs] at hr
      have h1 : w2.flag = w.flag :=
        stepCall_flag_of_not_set w c w2 hs (hc c (by simp))
      have h2 : w1.flag = w2.flag :=
        ih w2 hr (fun d hd b => hc d (by simp [hd]) b)
      rw [h2, h1]

/-- Claim C3: when the debug flag is off at the time of a trace call, the
call writes nothing: the sink comes back byte-for-byte unchanged, with its
append counter untouched, so no append and no formatting work is
performed. -/
theorem c3_disabled_trace_is_noop (f : Sink) (args : DebugArgs) :
    debug_writeln false f args = .ok f := by
  cases args <;> simp [debug_writeln]

/-- Claim C9: with a label and a non-empty value sequence, the macro
invocation with a trailing comma elaborates to the same argument shape as
the one without it, so the trace call produces byte-for-byte identical
sink output. -/
theorem c9_trailing_comma_same_output (dbg : Bool) (f : Sink) (msg : String)
    (x : Value) (xs : List Value) :
    (acceptsCall (some msg) (x :: xs) true).map (debug_writeln dbg f) =
      (acceptsCall (some msg) (x :: xs) false).map (debug_writeln dbg f) := rfl

/-- Claim C7, counterexample: a call shape that omits the label but
supplies a value matches none of the macro rules, with or without a
trailing comma -- it is rejected at compile time, not accepted. -/
theorem c7_counterexample :
    acceptsCall none [Value.int 5] false = none ∧
      acceptsCall none [Value.int 5] true = none :=
  ⟨rfl, rfl⟩

/-- Claim C7 as amended: label omission and values emptiness are not
independently legal.  A call shape is accepted exactly when either it has
no values (in which case no trailing comma is allowed, with or without a
label) or it has a label together with its values; omitting the label
while supplying one or more values is rejected. -/
theorem c7_accepted_shapes (label : Option String) (values : List Value)
    (trailingComma : Bool) :
    (acceptsCall label values trailingComma).isSome =
      (if values.isEmpty then !trailingComma else label.isSome) := by
  cases label <;> cases values <;> cases trailingComma <;> rfl

/-- Claim C6: while the flag is enabled, a trace call with zero values
writes exactly the debug prefix, the label and a newline when a label is
given, and exactly the bare debug line when no label is given, in one
append. -/
theorem c6_zero_values_output (f : Sink) (msg : String)
    (h : f.failures = []) :
    debug_writeln true f (.labelOnly msg) =
        .ok ⟨f.contents ++ ("debug: " ++ msg ++ "\n"), f.writeCount + 1, []⟩ ∧
      debug_writeln true f .nullary =
        .ok ⟨f.contents ++ "debug\n", f.writeCount + 1, []⟩ := by
  constructor <;>
  · rw [debug_writeln_eq_writeAll, writeAll_ok_of_no_failures _ _ h]
    simp [chunksOf, sconcat, String.append_empty, String.append_assoc]

theorem c6_witness :
    Sink.failures ⟨"", 0, []⟩ = [] ∧
      debug_writeln true ⟨"", 0, []⟩ (.labelOnly "msg") =
        .ok ⟨"debug: msg\n", 1, []⟩ ∧
      debug_writeln true ⟨"", 0, []⟩ .nullary =
        .ok ⟨"debug\n", 1, []⟩ :=
  ⟨rfl, (c6_zero_values_output ⟨"", 0, []⟩ "msg" rfl).1,
    (c6_zero_values_output ⟨"", 0, []⟩ "msg" rfl).2⟩

/-- Claim C2: while the flag is enabled, a trace call with a label and one
or more values writes exactly the debug prefix, the label, a colon-space,
the first value's debug rendering, each remaining value's rendering
prefixed by a comma-space, and one trailing newline, in one append per
piece. -/
theorem c2_enabled_trace_with_values (f : Sink) (msg : String) (x0 : Value)
    (xs : List Value) (h : f.failures = []) :
    debug_writeln true f (.withValues msg x0 xs) =
      .ok ⟨f.contents ++
            ("debug: " ++ msg ++ ": " ++ rustDebug x0 ++
              sconcat (xs.map (fun x => ", " ++ rustDebug x)) ++ "\n"),
          f.writeCount + (3 + xs.length), []⟩ := by
  rw [debug_writeln_eq_writeAll, writeAll_ok_of_no_failures _ _ h]
  simp only [Except.ok.injEq, Sink.mk.injEq]
  refine ⟨?_, ?_, trivial⟩
  · simp [chunksOf, sconcat, sconcat_append, String.append_assoc,
      String.append_empty]
  · simp [chunksOf]
    omega

theorem c2_witness :
    Sink.failures ⟨"", 0, []⟩ = [] ∧
      debug_writeln true ⟨"", 0, []⟩
          (.withValues "running" (.optSome (.int 5)) [.str "x"]) =
        .ok ⟨"debug: running: Some(5), \"x\"\n", 4, []⟩ :=
  ⟨rfl,
    c2_enabled_trace_with_values ⟨"", 0, []⟩ "running"
      (.optSome (.int 5)) [.str "x"] rfl⟩

/-- Claim C8: during an enabled trace call the appends are attempted in
order and the call aborts (the unwrap panics, modelled as the error
outcome) exactly when one of its appends fails; no failing append is
retried, suppressed, or surfaced as a recoverable result. -/
theorem c8_append_failure_aborts (f : Sink) (args : DebugArgs) :
    debug_writeln true f args = .error () ↔
      ∃ i, i < (chunksOf args).length ∧
        f.failures.contains (f.writeCount + i) = true := by
  rw [debug_writeln_eq_writeAll]
  exact writeAll_error_iff (chunksOf args) f

/-- Claim C4: after set_debug(b), is_debug returns exactly b, and it keeps
returning b across any further surviving calls none of which is a
set_debug. -/
theorem c4_set_then_is_debug (w : World) (b : Bool) (calls : List ApiCall)
    (w1 : World) (hc : ∀ c ∈ calls, ∀ b2, c ≠ ApiCall.setDebug b2)
    (hr : runCalls calls (set_debug b w) = some w1) :
    is_debug w1 = b := by
  have hflag := runCalls_flag_of_no_set calls (set_debug b w) w1 hr hc
  simpa [is_debug, set_debug] using hflag

theorem c4_witness :
    (∀ c ∈ [ApiCall.debugStderr .nullary], ∀ b2, c ≠ ApiCall.setDebug b2) ∧
      runCalls [ApiCall.debugStderr .nullary]
          (set_debug true ⟨false, ⟨"", 0, []⟩, ⟨"", 0, []⟩⟩) =
        some ⟨true, ⟨"debug\n", 1, []⟩, ⟨"", 0, []⟩⟩ ∧
      is_debug ⟨true, ⟨"debug\n", 1, []⟩, ⟨"", 0, []⟩⟩ = true :=
  ⟨by decide, by decide,
    c4_set_then_is_debug ⟨false, ⟨"", 0, []⟩, ⟨"", 0, []⟩⟩ true
      [ApiCall.debugStderr .nullary] ⟨true, ⟨"debug\n", 1, []⟩, ⟨"", 0, []⟩⟩
      (by decide) (by decide)⟩

/-- Claim C5: at process start the flag holds debug_emit AND
(debug_assertions OR test), and it keeps that value across any further
surviving calls until the first set_debug. -/
theorem c5_initial_flag (debug_emit debug_assertions test_cfg : Bool)
    (se bu : Sink) (calls : List ApiCall) (w1 : World)
    (hc : ∀ c ∈ calls, ∀ b, c ≠ ApiCall.setDebug b)
    (hr : runCalls calls (initWorld debug_emit debug_assertions test_cfg se bu) =
      some w1) :
    is_debug (initWorld debug_emit debug_assertions test_cfg se bu) =
        (debug_emit && (debug_assertions || test_cfg)) ∧
      is_debug w1 = (debug_emit && (debug_assertions || test_cfg)) := by
  refine ⟨rfl, ?_⟩
  have hflag := runCalls_flag_of_no_set calls _ w1 hr hc
  simpa [is_debug, initWorld, DEBUG_initial] using hflag

theorem c5_witness :
    (∀ c ∈ [ApiCall.isDebugCall, ApiCall.debugStderr .nullary],
        ∀ b, c ≠ ApiCall.setDebug b) ∧
      runCalls [ApiCall.isDebugCall, ApiCall.debugStderr .nullary]
          (initWorld true true false ⟨"", 0, []⟩ ⟨"", 0, []⟩) =
        some ⟨true, ⟨"debug\n", 1, []⟩, ⟨"", 0, []⟩⟩ ∧
      is_debug (initWorld true true false ⟨"", 0, []⟩ ⟨"", 0, []⟩) =
        (true && (true || false)) ∧
      is_debug ⟨true, ⟨"debug\n", 1, []⟩, ⟨"", 0, []⟩⟩ =
        (true && (true || false)) :=
  ⟨by decide, by decide,
    c5_initial_flag true true false ⟨"", 0, []⟩ ⟨"", 0, []⟩
      [ApiCall.isDebugCall, ApiCall.debugStderr .nullary]
      ⟨true, ⟨"debug\n", 1, []⟩, ⟨"", 0, []⟩⟩ (by decide) (by decide)⟩

/-- Claim C10: no trace operation (whether targeting a caller-owned sink
or stderr) ever modifies the debug flag: any surviving call that is not a
set_debug leaves is_debug unchanged, so only set_debug writes the flag. -/
theorem c10_trace_preserves_flag (w : World) (c : ApiCall) (w1 : World)
    (hs : stepCall w c = some w1) (hc : ∀ b, c ≠ ApiCall.setDebug b) :
    is_debug w1 = is_debug w :=
  stepCall_flag_of_not_set w c w1 hs hc

theorem c10_witness :
    stepCall ⟨true, ⟨"", 0, []⟩, ⟨"", 0, []⟩⟩
        (ApiCall.debugStderr (.labelOnly "done")) =
      some ⟨true, ⟨"debug: done\n", 1, []⟩, ⟨"", 0, []⟩⟩ ∧
      (∀ b, ApiCall.debugStderr (.labelOnly "done") ≠ ApiCall.setDebug b) ∧
      is_debug ⟨true, ⟨"debug: done\n", 1, []⟩, ⟨"", 0, []⟩⟩ =
        is_debug ⟨true, ⟨"", 0, []⟩, ⟨"", 0, []⟩⟩ :=
  ⟨by decide, by decide,
    c10_trace_preserves_flag ⟨true, ⟨"", 0, []⟩, ⟨"", 0, []⟩⟩
      (ApiCall.debugStderr (.labelOnly "done"))
      ⟨true, ⟨"debug: done\n", 1, []⟩, ⟨"", 0, []⟩⟩ (by decide) (by decide)⟩

/-- Claim C1 fails on the code: because the lock expression is substituted
into every write statement of the stderr macro expansion, the lock is
released between the chunks of one line.  Under the alternating schedule
both threads complete their enabled trace calls, yet the chunks of the two
lines interleave chunk by chunk: neither thread's line is contiguous in
the output, refuting the claimed exclusivity guarantee. -/
theorem c1_stderr_line_can_interleave :
    (run c1Sched c1Start).output =
        [(false, "debug: running: "), (true, "debug: other: "),
         (false, "Some(5)"), (true, "\"x\""),
         (false, "\n"), (true, "\n")] ∧
      contiguousOut false (run c1Sched c1Start).output = false ∧
      contiguousOut true (run c1Sched c1Start).output = false ∧
      (run c1Sched c1Start).progA = [] ∧
      (run c1Sched c1Start).progB = [] ∧
      (run c1Sched c1Start).lockHolder = none :=
  ⟨rfl, rfl, rfl, rfl, rfl, rfl⟩

/-- Under the very same adversarial schedule, the locking discipline the
documentation describes (one lock held across the whole line) does keep
each thread's line contiguous: the divergence of c1_stderr_line_can_interleave
comes precisely from re-acquiring the lock per chunk. -/
theorem c1_intended_locking_contiguous :
    (run c1Sched c1StartIntended).output =
        [(false, "debug: running: "), (false, "Some(5)"), (false, "\n"),
         (true, "debug: other: "), (true, "\"x\""), (true, "\n")] ∧
      contiguousOut false (run c1Sched c1StartIntended).output = true ∧
      contiguousOut true (run c1Sched c1StartIntended).output = true ∧
      (run c1Sched c1StartIntended).progA = [] ∧
      (run c1Sched c1StartIntended).progB = [] :=
  ⟨rfl, rfl, rfl, rfl, rfl⟩
